import Mathlib

/-!
Verification of the playwright-address-extractor repository.

Strings are modelled as `List Char` (`Str`).  JavaScript string primitives
used by the source (`trim`, `split`, regex character classes `\s`, `\d`,
`\w`, case-insensitive matching of ASCII patterns, `String.prototype.replace`
with the specific patterns appearing in the source) are embedded as
executable functions on `Str`.
-/

set_option maxRecDepth 10000

abbrev Str := List Char

/-- View a Lean string literal as a `Str`. -/
def strOf (s : String) : Str := s.data

/-- JavaScript `\s` (and the set removed by `String.prototype.trim`):
WhiteSpace and LineTerminator code points. -/
def isJsSpace (c : Char) : Bool :=
  c.toNat = 0x9 ∨ c.toNat = 0xA ∨ c.toNat = 0xB ∨ c.toNat = 0xC ∨ c.toNat = 0xD ∨
  c.toNat = 0x20 ∨ c.toNat = 0xA0 ∨ c.toNat = 0x1680 ∨
  (0x2000 ≤ c.toNat ∧ c.toNat ≤ 0x200A) ∨
  c.toNat = 0x2028 ∨ c.toNat = 0x2029 ∨ c.toNat = 0x202F ∨ c.toNat = 0x205F ∨
  c.toNat = 0x3000 ∨ c.toNat = 0xFEFF

/-- JavaScript `\d`: ASCII digits. -/
def isDigitChar (c : Char) : Bool := 0x30 ≤ c.toNat ∧ c.toNat ≤ 0x39

/-- ASCII letter (`[a-zA-Z]`). -/
def isAsciiAlpha (c : Char) : Bool :=
  (0x41 ≤ c.toNat ∧ c.toNat ≤ 0x5A) ∨ (0x61 ≤ c.toNat ∧ c.toNat ≤ 0x7A)

/-- JavaScript `\w`: `[A-Za-z0-9_]`. -/
def isWordChar (c : Char) : Bool := isAsciiAlpha c ∨ isDigitChar c ∨ c = '_'

/-- JavaScript line terminators, the code points not matched by `.`. -/
def isLineTerm (c : Char) : Bool :=
  c.toNat = 0xA ∨ c.toNat = 0xD ∨ c.toNat = 0x2028 ∨ c.toNat = 0x2029

/-- ASCII-lowercase a character; faithful to `/i` canonicalisation for the
ASCII-only patterns appearing in the source. -/
def toLowerCh (c : Char) : Char :=
  if 0x41 ≤ c.toNat ∧ c.toNat ≤ 0x5A then Char.ofNat (c.toNat + 32) else c

/-- Drop trailing characters satisfying `isJsSpace`. -/
def dropTrailingSp : Str → Str
  | [] => []
  | c :: rest =>
    let r := dropTrailingSp rest
    if r = [] ∧ isJsSpace c then [] else c :: r

/-- JavaScript `String.prototype.trim`. -/
def jsTrim (l : Str) : Str := dropTrailingSp (l.dropWhile isJsSpace)

/-- JavaScript `String.prototype.split` with a one-character separator. -/
def splitOnChar (sep : Char) : Str → List Str
  | [] => [[]]
  | c :: rest =>
    let r := splitOnChar sep rest
    if c = sep then [] :: r
    else
      match r with
      | [] => [[c]]
      | h :: t => (c :: h) :: t

/-- JavaScript `Array.prototype.join` with a one-character separator. -/
def joinChar (sep : Char) : List Str → Str
  | [] => []
  | [x] => x
  | x :: y :: t => x ++ sep :: joinChar sep (y :: t)

/-- JavaScript `String.prototype.replace(pat, '')` for a plain non-empty
string pattern `pat`: delete the first (leftmost) occurrence. -/
def replaceFirstDel (pat : Str) : Str → Str
  | [] => []
  | c :: rest =>
    if pat ≠ [] ∧ pat.isPrefixOf (c :: rest) then (c :: rest).drop pat.length
    else c :: replaceFirstDel pat rest

/-! ### Text Normalizer

`CsvUtils.cleanText` (src/csvUtils.ts, lines 7-24) and the identical
`cleanAddressText` (src/addressExtractor.ts, lines 231-246): a chain of six
`replace` passes, embedded one stage per definition, in source order. -/

/-- Private use area code points, removed by `replace(/[-]/g, '')`. -/
def isPUA (c : Char) : Bool := 0xE000 ≤ c.toNat ∧ c.toNat ≤ 0xF8FF

/-- Bullet/dash glyphs of the leading-junk class
`/^[·•\-\s•‣◦⁃⁌⁍∙▪▫●○]+/`
(the non-`\s` members; `·` is U+00B7 and `•` is U+2022). -/
def isBullet (c : Char) : Bool :=
  c.toNat = 0xB7 ∨ c.toNat = 0x2022 ∨ c.toNat = 0x2023 ∨ c.toNat = 0x25E6 ∨
  c.toNat = 0x2043 ∨ c.toNat = 0x204C ∨ c.toNat = 0x204D ∨ c.toNat = 0x2219 ∨
  c.toNat = 0x25AA ∨ c.toNat = 0x25AB ∨ c.toNat = 0x25CF ∨ c.toNat = 0x25CB ∨
  c = '-'

/-- The full leading-junk character class (bullets together with `\s`). -/
def inLeadClass (c : Char) : Bool := isBullet c ∨ isJsSpace c

/-- Zero-width code points removed by `replace(/[​-‍﻿]/g, '')`. -/
def isZeroWidth (c : Char) : Bool :=
  c.toNat = 0x200B ∨ c.toNat = 0x200C ∨ c.toNat = 0x200D ∨ c.toNat = 0xFEFF

/-- Exotic spaces mapped to ASCII space by
`replace(/[  -   　]/g, ' ')`. -/
def isExoticSpace (c : Char) : Bool :=
  c.toNat = 0xA0 ∨ (0x2000 ≤ c.toNat ∧ c.toNat ≤ 0x200A) ∨
  c.toNat = 0x202F ∨ c.toNat = 0x205F ∨ c.toNat = 0x3000

def removePUA (l : Str) : Str := l.filter (fun c => !isPUA c)

def stripLeading (l : Str) : Str := l.dropWhile inLeadClass

def removeZeroWidth (l : Str) : Str := l.filter (fun c => !isZeroWidth c)

def mapSpaces (l : Str) : Str := l.map (fun c => if isExoticSpace c then ' ' else c)

/-- `replace(/\s+/g, ' ')`: the boolean records whether the previous
character belonged to a whitespace run already emitted as one space. -/
def collapseAux : Bool → Str → Str
  | _, [] => []
  | prev, c :: rest =>
    if isJsSpace c then
      if prev then collapseAux true rest else ' ' :: collapseAux true rest
    else c :: collapseAux false rest

def collapseSpaces (l : Str) : Str := collapseAux false l

/-- `CsvUtils.cleanText` / `cleanAddressText`: the six replace passes in
source order, then `trim()`. -/
def cleanText (l : Str) : Str :=
  jsTrim (collapseSpaces (mapSpaces (removeZeroWidth (stripLeading (removePUA l)))))

/-- `cleanAddressText` of `AddressExtractor` is character-for-character the
same chain as `CsvUtils.cleanText`. -/
def cleanAddressText (l : Str) : Str := cleanText l

/-- `cleanText` on Lean `String`s. -/
def cleanTextS (s : String) : String := String.mk (cleanText s.data)


/-- Zero-width joiners/spaces that are not JavaScript whitespace: the code
points that `stripLeading` cannot consume but `removeZeroWidth` deletes. -/
def isShieldZW (c : Char) : Bool :=
  c.toNat = 0x200B ∨ c.toNat = 0x200C ∨ c.toNat = 0x200D

/-- Trailing-whitespace-free strings. -/
def noTrailSp : Str → Bool
  | [] => true
  | [c] => !isJsSpace c
  | _ :: c :: rest => noTrailSp (c :: rest)

/-- No two adjacent whitespace characters. -/
def noAdjSp : Str → Bool
  | [] => true
  | [_] => true
  | a :: b :: rest => !(isJsSpace a ∧ isJsSpace b) && noAdjSp (b :: rest)


/-! ### Regex machinery for the validator patterns

All patterns in the source are ASCII, so `/i` matching is embedded as
ASCII lower-casing.  `\b`-delimited alternatives are matched by a
word-boundary-aware scan; un-anchored patterns by a scan over suffixes. -/

/-- Case-insensitive prefix test; `pat` is given already lower-cased. -/
def prefixCIA : Str → Str → Bool
  | [], _ => true
  | _ :: _, [] => false
  | p :: ps, c :: cs => p = toLowerCh c && prefixCIA ps cs

/-- Un-anchored case-insensitive substring test (`/pat/i.test(l)`). -/
def containsCI (pat : Str) : Str → Bool
  | [] => prefixCIA pat []
  | c :: rest => prefixCIA pat (c :: rest) || containsCI pat rest

/-- Does the predicate hold at some start position (leftmost-match search)? -/
def anySuffix (f : Str → Bool) : Str → Bool
  | [] => f []
  | c :: rest => f (c :: rest) || anySuffix f rest

/-- Match of `tok` (lower-cased, starting and ending in `\w` characters) at
the head of `l`, with the trailing `\b` checked. -/
def wordBoundedAtCI (tok : Str) (l : Str) : Bool :=
  prefixCIA tok l &&
    (match l.drop tok.length with
     | [] => true
     | c :: _ => !isWordChar c)

/-- Scan for a `\btok\b` match; the boolean tells whether the previous
character allows a word boundary here. -/
def cwAux (tok : Str) : Bool → Str → Bool
  | _, [] => false
  | prevOk, c :: rest =>
    (prevOk && wordBoundedAtCI tok (c :: rest)) || cwAux tok (!isWordChar c) rest

/-- Case-insensitive word-bounded containment (`/\btok\b/i.test(l)`). -/
def containsWordCI (tok : Str) (l : Str) : Bool := cwAux tok true l

/-- Match of the rating pattern `\d+\.\d+\(\d+\)` at the head of `l`. -/
def ratingAt (l : Str) : Bool :=
  let d1 := l.takeWhile isDigitChar
  let r1 := l.drop d1.length
  d1 ≠ [] &&
    match r1 with
    | '.' :: r2 =>
      let d2 := r2.takeWhile isDigitChar
      let r3 := r2.drop d2.length
      d2 ≠ [] &&
        match r3 with
        | '(' :: r4 =>
          let d3 := r4.takeWhile isDigitChar
          let r5 := r4.drop d3.length
          d3 ≠ [] && r5.head? = some ')'
        | _ => false
    | _ => false

/-- Match of `\d+-star` (case-insensitive) at the head of `l`. -/
def starAt (l : Str) : Bool :=
  let d := l.takeWhile isDigitChar
  d ≠ [] && prefixCIA (strOf "-star") (l.drop d.length)

/-- Match of `open \d+` (case-insensitive) at the head of `l`. -/
def openDigitAt (l : Str) : Bool :=
  prefixCIA (strOf "open ") l &&
    (match l.drop 5 with
     | [] => false
     | c :: _ => isDigitChar c)

/-! ### Address Validator

`isValidAddressLine` (tests/MyScript.spec.ts, lines 31-57) and
`isValidCity` (lines 60-109). -/

/-- Street-suffix alternatives of the regex
`\b(St|Street|Ave|Avenue|Rd|Road|Dr|Drive|Blvd|Boulevard|Way|Lane|Ln|Ct|Court|Pl|Place|Cir|Circle|Pkwy|Parkway|Hwy|Highway)\b`. -/
def streetSuffixTokens : List Str :=
  [strOf "st", strOf "street", strOf "ave", strOf "avenue", strOf "rd",
   strOf "road", strOf "dr", strOf "drive", strOf "blvd", strOf "boulevard",
   strOf "way", strOf "lane", strOf "ln", strOf "ct", strOf "court",
   strOf "pl", strOf "place", strOf "cir", strOf "circle", strOf "pkwy",
   strOf "parkway", strOf "hwy", strOf "highway"]

/-- Test of `/\d/`. -/
def hasDigit (l : Str) : Bool := l.any isDigitChar

/-- Test of the street-suffix regex. -/
def hasStreetSuffix (l : Str) : Bool :=
  streetSuffixTokens.any (fun t => containsWordCI t l)

/-- The `improperPatterns` array of `isValidAddressLine`, in source order:
rating strings, star ratings, accommodation types, business types, business
descriptions, operating hours. -/
def improperAddress (l : Str) : Bool :=
  anySuffix ratingAt l ||
  anySuffix starAt l ||
  (containsCI (strOf "hotel") l || containsCI (strOf "inn") l ||
   containsCI (strOf "suites") l || containsCI (strOf "motel") l ||
   containsCI (strOf "resort") l || containsCI (strOf "lodge") l) ||
  (containsCI (strOf "restaurant") l || containsCI (strOf "cafe") l ||
   containsCI (strOf "mall") l || containsCI (strOf "center") l ||
   containsCI (strOf "plaza") l) ||
  (containsCI (strOf "gas station") l || containsCI (strOf "convenience store") l) ||
  (anySuffix openDigitAt l || containsCI (strOf "closed") l ||
   containsCI (strOf "hours") l)

/-- `isValidAddressLine`: empty/whitespace guard, then
has-number AND has-street-suffix AND no improper pattern. -/
def isValidAddressLine (l : Str) : Bool :=
  if l = [] ∨ jsTrim l = [] then false
  else hasDigit l && hasStreetSuffix l && !improperAddress l

/-- Character class of `/^[a-zA-Z\s'\-\.]+$/`. -/
def cityCharOk (c : Char) : Bool :=
  isAsciiAlpha c ∨ isJsSpace c ∨ c = '\'' ∨ c = '-' ∨ c = '.'

/-- Anchored case-insensitive whole-string match (`/^pat$/i`). -/
def eqCI (pat l : Str) : Bool := l.length = pat.length && prefixCIA pat l

/-- Test of `/^\d+$/`. -/
def allDigits (l : Str) : Bool := l ≠ [] && l.all isDigitChar

/-- Test of `/^[^a-zA-Z]*$/`. -/
def noLetters (l : Str) : Bool := l.all (fun c => !isAsciiAlpha c)

/-- Match of `\d{5}` at the head of `l`. -/
def zip5At (l : Str) : Bool :=
  (l.take 5).length = 5 && (l.take 5).all isDigitChar

/-- Test of `/\d{5}/`. -/
def hasZip5 (l : Str) : Bool := anySuffix zip5At l

/-- Alternatives of `\b(gas|station|store|shop|mart|center|plaza)\b`. -/
def cityBizTokens : List Str :=
  [strOf "gas", strOf "station", strOf "store", strOf "shop", strOf "mart",
   strOf "center", strOf "plaza"]

/-- Alternatives of `\b(open|closed|hours|24\/7)\b`. -/
def cityHoursTokens : List Str :=
  [strOf "open", strOf "closed", strOf "hours", strOf "24/7"]

/-- The `invalidPatterns` array of `isValidCity`, in source order. -/
def cityInvalid (t : Str) : Bool :=
  eqCI (strOf "unknown") t || eqCI (strOf "n/a") t || eqCI (strOf "null") t ||
  eqCI (strOf "undefined") t ||
  allDigits t || noLetters t || hasZip5 t ||
  cityBizTokens.any (fun tok => containsWordCI tok t) ||
  cityHoursTokens.any (fun tok => containsWordCI tok t) ||
  anySuffix ratingAt t

/-- Test of `/^[a-zA-Z]/`. -/
def startsWithLetter : Str → Bool
  | [] => false
  | c :: _ => isAsciiAlpha c

/-- `isValidCity`: the checks of the source in source order, applied to the
trimmed input. -/
def isValidCity (l : Str) : Bool :=
  if jsTrim l = [] then false
  else
    let t := jsTrim l
    if t.length < 2 then false
    else if !(t ≠ [] && t.all cityCharOk) then false
    else if cityInvalid t then false
    else if t.length > 50 then false
    else startsWithLetter t

/-- `isValidCity` lifted to the nullable argument of the source
(`string | null | undefined`): `null`/`undefined` fail the guard. -/
def isValidCityOpt : Option Str → Bool
  | none => false
  | some l => isValidCity l

/-- Modelled from the claim wording for C8: non-empty after trimming, length
in [2, 50], only letters/whitespace/apostrophes/hyphens/periods, starts with
a letter, and none of the invalid patterns. -/
def cityValidSpec (l : Str) : Bool :=
  let t := jsTrim l
  !t.isEmpty && decide (2 ≤ t.length) && decide (t.length ≤ 50) &&
    t.all cityCharOk && startsWithLetter t && !cityInvalid t

/-! ### Address Parser

`parseAddress` (src/addressExtractor.ts, lines 248-283), with the regexes
`/\s+[A-Z]{2}\s+\d{5}.*$/` (city state-zip strip) and
`/^(\d+.*?(?:St|Ave|Rd|Dr|Blvd|Way|Lane|Ln|Ct|Pl))/i` (no-comma fallback)
embedded with JavaScript backtracking order. -/

/-- Uppercase ASCII letter (`[A-Z]`). -/
def isUpperAZ (c : Char) : Bool := 0x41 ≤ c.toNat ∧ c.toNat ≤ 0x5A

/-- Match of `\s+[A-Z]{2}\s+\d{5}.*$` at the head of `l` (the `.*$` forces
the match to extend to the end of the input without crossing a line
terminator). -/
def stateZipAt (l : Str) : Bool :=
  let sp1 := l.takeWhile isJsSpace
  let r1 := l.drop sp1.length
  sp1 ≠ [] &&
    match r1 with
    | a :: b :: r2 =>
      isUpperAZ a && isUpperAZ b &&
        (let sp2 := r2.takeWhile isJsSpace
         let r3 := r2.drop sp2.length
         sp2 ≠ [] && zip5At r3 && (r3.drop 5).all (fun c => !isLineTerm c))
    | _ => false

/-- `city.replace(/\s+[A-Z]{2}\s+\d{5}.*$/, '')`: delete from the leftmost
match start to the end. -/
def stripStateZip : Str → Str
  | [] => []
  | c :: rest => if stateZipAt (c :: rest) then [] else c :: stripStateZip rest

/-- Suffix alternatives of the no-comma fallback regex, in source order. -/
def parseSuffixTokens : List Str :=
  [strOf "st", strOf "ave", strOf "rd", strOf "dr", strOf "blvd",
   strOf "way", strOf "lane", strOf "ln", strOf "ct", strOf "pl"]

/-- First suffix alternative matching at position `pos`, returning its
length (JavaScript alternation tries alternatives left to right). -/
def altAt (l : Str) (pos : Nat) : Option Nat :=
  parseSuffixTokens.findSome? (fun alt =>
    if prefixCIA alt (l.drop pos) then some alt.length else none)

/-- JavaScript match of `^(\d+.*?(?:St|Ave|Rd|Dr|Blvd|Way|Lane|Ln|Ct|Pl))/i`:
greedy `\d+` (longest first), lazy `.*?` (shortest first, no line
terminators), then the alternation; returns the captured span. -/
def matchStreetPat (l : Str) : Option Str :=
  let dmax := (l.takeWhile isDigitChar).length
  if dmax = 0 then none
  else
    (List.range dmax).findSome? (fun k =>
      let dlen := dmax - k
      (List.range (l.length - dlen + 1)).findSome? (fun gap =>
        if ((l.drop dlen).take gap).all (fun c => !isLineTerm c) then
          (altAt l (dlen + gap)).map (fun alen => l.take (dlen + gap + alen))
        else none))

/-- `parseAddress`: normalize, split on commas; with at least two segments
take segment 0 as the address line and segment 1 with the trailing
state-zip suffix stripped as the city; otherwise fall back to the street
pattern, else `Unknown`. -/
def parseAddress (input : Str) : Str × Str :=
  let fullAddress := cleanAddressText input
  let parts := (splitOnChar ',' fullAddress).map jsTrim
  if 2 ≤ parts.length then
    (parts.headD [], jsTrim (stripStateZip (parts[1]?.getD [])))
  else
    match matchStreetPat fullAddress with
    | some addressline =>
      let remaining := jsTrim (fullAddress.drop addressline.length)
      let cityc := jsTrim ((splitOnChar ',' remaining).headD [])
      (addressline, if cityc = [] then strOf "Unknown" else cityc)
    | none => (fullAddress, strOf "Unknown")

/-! ### Sharded Record Store: work-unit selection

`readZipCodesFromCSV` (tests/MyScript.spec.ts, lines 177-262).  The CSV
file existence check and column parsing (lines 177-207) are modelled by a
given list of already-parsed records; the state filter, the pending filter
and the sharding block (lines 209-261) are embedded below. -/

structure CsvRecord where
  zipcode : String
  state : String
  address : String
  city : String
deriving DecidableEq

/-- The `TARGET_STATE` configuration: `'ALL'`, a single state code, or an
array of state codes. -/
inductive TargetState
  | all
  | single (s : String)
  | multiple (ss : List String)
deriving DecidableEq

/-- State filtering (lines 209-224). -/
def stateFilter : TargetState → List CsvRecord → List CsvRecord
  | .all, rows => rows
  | .single s, rows => rows.filter (fun r => r.state = s)
  | .multiple ss, rows => rows.filter (fun r => ss.contains r.state)

/-- Records without address/city data (lines 226-231; `!x || x === ''`
collapses to the empty-string test). -/
def pendingFilter (rows : List CsvRecord) : List CsvRecord :=
  rows.filter (fun r => r.address = "" ∨ r.city = "")

/-- `Math.ceil(n / k)` on integers. -/
def ceilDiv (n k : Nat) : Nat := (n + k - 1) / k

/-- `Array.prototype.slice(a, b)` for `0 ≤ a, b`. -/
def sliceJs {α : Type} (l : List α) (a b : Nat) : List α := (l.drop a).take (b - a)

/-- Shard `i`'s range before the `MAX_RECORDS_PER_SHARD` cap:
`slice(startIndex, endIndex)` with `recordsPerShard = ceil(n / k)`,
`startIndex = i * recordsPerShard`, `endIndex = min(startIndex +
recordsPerShard, n)` (lines 238-240). -/
def shardRange {α : Type} (l : List α) (k i : Nat) : List α :=
  let c := ceilDiv l.length k
  sliceJs l (i * c) (min (i * c + c) l.length)

/-- The sharding block (lines 236-258): applied only when
`TOTAL_SHARDS > 1`, with the cap `actualEndIndex = min(endIndex,
startIndex + MAX_RECORDS_PER_SHARD)`. -/
def applySharding {α : Type} (l : List α) (k i maxPerShard : Nat) : List α :=
  if 1 < k then
    let c := ceilDiv l.length k
    let s := i * c
    let e := min (s + c) l.length
    sliceJs l s (min e (s + maxPerShard))
  else l

/-- `readZipCodesFromCSV` over parsed records: filter by target state, keep
pending records, shard, and project to `(zipcode, state)` (line 261). -/
def readZipCodesFromCSV (rows : List CsvRecord) (target : TargetState)
    (shardIndex totalShards maxPerShard : Nat) : List (String × String) :=
  (applySharding (pendingFilter (stateFilter target rows))
      totalShards shardIndex maxPerShard).map (fun r => (r.zipcode, r.state))

/-! ### Sharded Record Store: row update

`updateFinalCSV` (tests/MyScript.spec.ts, lines 112-174).  File access is
modelled by taking the current file content as input and returning the
content that would be written — `none` when the function returns without
writing (row not found; the missing-file guard is the caller's concern). -/

/-- `col.replace(/^"|"$/g, '')`: remove one leading and one trailing
double quote. -/
def stripQuotesOnce (l : Str) : Str :=
  let l1 := if l.head? = some '"' then l.tail else l
  if l1 ≠ [] ∧ l1.getLast? = some '"' then l1.dropLast else l1

/-- Does the loop of lines 140-148 select this line: non-blank, at least
two comma-separated columns, and the first two equal to the key. -/
def rowMatches (line : Str) (zipcode state : Str) : Bool :=
  jsTrim line ≠ [] &&
    (let cols := splitOnChar ',' line
     2 ≤ cols.length && cols.headD [] = zipcode && cols[1]?.getD [] = state)

/-- The search loop, scanning from index 1. -/
def findRowIdxAux (zipcode state : Str) : Nat → List Str → Option Nat
  | _, [] => none
  | i, line :: rest =>
    if rowMatches line zipcode state then some i
    else findRowIdxAux zipcode state (i + 1) rest

/-- Index of the first matching data row (the loop of lines 139-148). -/
def findRowIdx (lines : List Str) (zipcode state : Str) : Option Nat :=
  findRowIdxAux zipcode state 1 (lines.drop 1)

/-- Lines 155-169: pad the matched row to four columns with `'""'`, strip
surrounding quotes from every column, overwrite columns 2 and 3, and
rebuild as `${c0},${c1},"${address}","${city}"`. -/
def rebuildRow (line : Str) (addressLine city : Str) : Str :=
  let cols := splitOnChar ',' line
  let padded := cols ++ List.replicate (4 - cols.length) (strOf "\"\"")
  let stripped := padded.map stripQuotesOnce
  stripped.headD [] ++ [','] ++ stripped[1]?.getD [] ++
    [',', '"'] ++ addressLine ++ ['"', ',', '"'] ++ city ++ ['"']

/-- Lines 125-136: replace the header when it lacks the `address`/`city`
columns. -/
def fixHeader (lines : List Str) : List Str :=
  let headerColumns := splitOnChar ',' (lines.headD [])
  if !(headerColumns.contains (strOf "address") &&
       headerColumns.contains (strOf "city")) then
    lines.set 0 (strOf "zipcode,state,address,city")
  else lines

/-- `updateFinalCSV` on the file content: split into lines, fix the header,
locate the row by `(zipcode, state)`, and either return without writing
(`none`) or write back the updated joined lines. -/
def updateFinalCSV (content : Str) (zipcode state addressLine city : Str) :
    Option Str :=
  let lines := fixHeader (splitOnChar '\n' content)
  match findRowIdx lines zipcode state with
  | none => none
  | some i =>
    some (joinChar '\n'
      (lines.set i (rebuildRow (lines[i]?.getD []) addressLine city)))

/-! ### Outer retry wrapper

`processWithRetry` (src/parallelProcessor.ts, lines 67-111).  The
extractor collaborator is modelled as a function from the 1-based attempt
number to either a thrown error message or a returned `AddressResult`; the
backoff delays have no observable effect here.  The embedding returns the
result paired with the number of `extractAddress` calls consumed. -/

structure AddressResult where
  zipcode : String
  state : String
  addressline : String
  city : String
  valid : Bool
  error : Option String
deriving DecidableEq

inductive AttemptOutcome
  | fault (msg : String)
  | result (r : AddressResult)
deriving DecidableEq

/-- Lines 102-110: the result returned after the loop,
`lastError?.message || 'Max retries exceeded'`. -/
def maxRetriesResult (zipcode state : String) (lastError : Option String) :
    AddressResult :=
  { zipcode := zipcode, state := state, addressline := "Error", city := "Error",
    valid := false,
    error := some (match lastError with
      | some m => if m = "" then "Max retries exceeded" else m
      | none => "Max retries exceeded") }

/-- JavaScript truthiness of `result.error` (`string | undefined`): truthy
exactly when present and non-empty. -/
def errTruthy : Option String → Bool
  | some e => e ≠ ""
  | none => false

/-- The retry loop (lines 72-100); `remaining` counts the attempts still
allowed including the current one (`remaining = retries + 1 - attempt`),
`0` meaning the loop has exited.  The retry guard of line 84,
`attempt < this.config.retries && result.error`, tests `result.error` for
truthiness, so an empty-string error does not retry. -/
def processWithRetryAux (ext : Nat → AttemptOutcome) (zipcode state : String)
    (retries : Nat) : Nat → Nat → Option String → AddressResult × Nat
  | 0, attempt, lastError => (maxRetriesResult zipcode state lastError, attempt - 1)
  | remaining + 1, attempt, lastError =>
    match ext attempt with
    | .result r =>
      if r.valid || r.addressline == "Not Found" then (r, attempt)
      else if decide (attempt < retries) && errTruthy r.error then
        processWithRetryAux ext zipcode state retries remaining (attempt + 1) lastError
      else (r, attempt)
    | .fault msg =>
      processWithRetryAux ext zipcode state retries remaining (attempt + 1) (some msg)

/-- `processWithRetry`: run the loop from attempt 1 with no recorded
error. -/
def processWithRetry (ext : Nat → AttemptOutcome) (zipcode state : String)
    (retries : Nat) : AddressResult × Nat :=
  processWithRetryAux ext zipcode state retries retries 1 none

/-! ### Search-and-Retry Orchestrator

`searchForLocationType` (tests/MyScript.spec.ts, lines 265-320) and
`processZipCode` (lines 323-358).  The Playwright page is modelled per
search type: a possible navigation fault (thrown by `goto` /
`waitForTimeout` / `locator(...).all()` and caught by the outer catch of
line 316) and the list of result entries, each with possible click /
getAttribute faults (caught by the inner catch of line 307) and the
`aria-label` of the address button (`none` for `null`).  The
`updateFinalCSV` side effect of `processZipCode` is modelled by returning
the `(address, city)` pair passed to it, together with the number of
search types attempted. -/

structure ResultEntry where
  clickFault : Option String
  attrFault : Option String
  ariaLabel : Option Str

structure TermPage where
  gotoFault : Option String
  results : List ResultEntry

/-- The collaborator behavior, keyed by search type. -/
def PageModel := String → TermPage

/-- The `SEARCH_TYPES` list (lines 18-28), in priority order. -/
def SEARCH_TYPES : List String :=
  ["post office", "schools", "colleges", "petrol stations",
   "government office", "apartments", "hospitals", "pharmacies",
   "police station"]

/-- One iteration of the result loop (lines 277-311): `none` means
`continue` — on a click/getAttribute fault, a missing or empty
`aria-label`, a state/zip mismatch, or failed validation. -/
def processEntry (zipcode state : Str) (e : ResultEntry) : Option (Str × Str) :=
  if e.clickFault.isSome then none
  else if e.attrFault.isSome then none
  else
    match e.ariaLabel with
    | none => none
    | some ca =>
      if ca = [] then none
      else
        let addressLine := jsTrim
          ((splitOnChar ',' (replaceFirstDel (strOf "Address: ") ca)).headD [])
        let segs := splitOnChar ',' ca
        let city := segs[1]?.map jsTrim
        let seg2 := segs[2]?.map jsTrim
        let stateIn := seg2.map (fun x => jsTrim ((splitOnChar ' ' x).headD []))
        let zipIn := seg2.bind (fun x => ((splitOnChar ' ' x)[1]?).map jsTrim)
        if stateIn ≠ some state ∨ zipIn ≠ some zipcode then none
        else if isValidAddressLine addressLine && isValidCityOpt city then
          some (addressLine, city.getD [])
        else none

/-- `searchForLocationType`: a navigation fault is caught by the outer
catch and yields `null`; otherwise the first result entry that produces a
validated, consistent address wins. -/
def searchForLocationType (pm : PageModel) (zipcode state : Str)
    (searchType : String) : Option (Str × Str) :=
  let tp := pm searchType
  match tp.gotoFault with
  | some _ => none
  | none => tp.results.findSome? (processEntry zipcode state)

/-- The search-type loop of `processZipCode` (lines 332-342), also counting
how many search types were attempted. -/
def processTerms (pm : PageModel) (zipcode state : Str) :
    List String → Option (Str × Str) × Nat
  | [] => (none, 0)
  | t :: rest =>
    match searchForLocationType pm zipcode state t with
    | some r => (some r, 1)
    | none =>
      let p := processTerms pm zipcode state rest
      (p.1, p.2 + 1)

/-- `processZipCode`: the pair written by `updateFinalCSV` — the first
valid result, or the `"Not Found"` sentinels after all search types are
exhausted — together with the number of search types attempted. -/
def processZipCode (pm : PageModel) (zipcode state : Str) : (Str × Str) × Nat :=
  match processTerms pm zipcode state SEARCH_TYPES with
  | (some rc, n) => (rc, n)
  | (none, n) => ((strOf "Not Found", strOf "Not Found"), n)

/-- A collaborator whose navigation times out on every search. -/
def failPage : PageModel :=
  fun _ => { gotoFault := some "Timeout 30000ms exceeded", results := [] }

/-! ### Result writers

`CsvUtils.writeResults` (src/csvUtils.ts, lines 56-77) and
`CsvUtils.writeDetailedResults` (lines 79-102).  The csv-writer
collaborator is modelled by the list of records passed to
`writeRecords`. -/

structure CleanRow where
  zipcode : String
  state : String
  addressline : String
  city : String
deriving DecidableEq

/-- The per-result mapping of `writeResults` (lines 68-73): the exact
`'Error'` sentinel becomes `'Not Found'`, and both fields are normalized
with `cleanText`. -/
def writeCleanRow (r : AddressResult) : CleanRow :=
  { zipcode := r.zipcode, state := r.state,
    addressline :=
      cleanTextS (if r.addressline = "Error" then "Not Found" else r.addressline),
    city := cleanTextS (if r.city = "Error" then "Not Found" else r.city) }

/-- The records written by `writeResults`. -/
def writeResultsRecords (results : List AddressResult) : List CleanRow :=
  results.map writeCleanRow

structure DetailedRow where
  zipcode : String
  state : String
  addressline : String
  city : String
  valid : Bool
  error : Option String
deriving DecidableEq

/-- The per-result mapping of `writeDetailedResults` (lines 93-98): the
spread keeps `zipcode`/`state`/`valid`; `error` is cleaned only when
truthy. -/
def writeDetailedRow (r : AddressResult) : DetailedRow :=
  { zipcode := r.zipcode, state := r.state,
    addressline := cleanTextS r.addressline, city := cleanTextS r.city,
    valid := r.valid,
    error := match r.error with
      | some e => if e ≠ "" then some (cleanTextS e) else some e
      | none => none }

/-- The records written by `writeDetailedResults`. -/
def writeDetailedResultsRecords (results : List AddressResult) :
    List DetailedRow :=
  results.map writeDetailedRow
/-! ### Normalizer lemmas -/

lemma mem_of_mem_dropWhile {p : Char → Bool} {l : Str} {c : Char}
    (h : c ∈ l.dropWhile p) : c ∈ l := by
  induction l with
  | nil => simpa using h
  | cons a t ih =>
    rw [List.dropWhile_cons] at h
    by_cases hp : p a
    · simp only [hp, if_pos] at h
      exact List.mem_cons_of_mem _ (ih h)
    · simp only [hp] at h
      simpa using h

lemma mem_of_mem_dropTrailingSp {l : Str} {c : Char}
    (h : c ∈ dropTrailingSp l) : c ∈ l := by
  induction l with
  | nil => simpa [dropTrailingSp] using h
  | cons a t ih =>
    rw [dropTrailingSp] at h
    by_cases hc : dropTrailingSp t = [] ∧ isJsSpace a
    · simp [hc] at h
    · simp only [if_neg hc, List.mem_cons] at h
      rcases h with h | h
      · exact h ▸ List.mem_cons_self _ _
      · exact List.mem_cons_of_mem _ (ih h)

lemma mem_of_mem_jsTrim {l : Str} {c : Char} (h : c ∈ jsTrim l) : c ∈ l :=
  mem_of_mem_dropWhile (mem_of_mem_dropTrailingSp h)

lemma mem_collapseAux {b : Bool} {l : Str} {c : Char}
    (h : c ∈ collapseAux b l) : c ∈ l ∨ c = ' ' := by
  induction l generalizing b with
  | nil => simp [collapseAux] at h
  | cons a t ih =>
    rw [collapseAux] at h
    by_cases ha : isJsSpace a
    · simp only [ha, if_pos] at h
      by_cases hb : b
      · subst hb; simp only [if_pos] at h
        rcases ih h with h' | h'
        · exact Or.inl (List.mem_cons_of_mem _ h')
        · exact Or.inr h'
      · simp only [hb, if_neg, Bool.false_eq_true, not_false_iff, List.mem_cons] at h
        rcases h with h | h
        · exact Or.inr h
        · rcases ih h with h' | h'
          · exact Or.inl (List.mem_cons_of_mem _ h')
          · exact Or.inr h'
    · simp only [ha, Bool.false_eq_true, if_neg, not_false_iff, List.mem_cons] at h
      rcases h with h | h
      · exact Or.inl (h ▸ List.mem_cons_self _ _)
      · rcases ih h with h' | h'
        · exact Or.inl (List.mem_cons_of_mem _ h')
        · exact Or.inr h'

lemma sp_mem_collapseAux {b : Bool} {l : Str} {c : Char}
    (h : c ∈ collapseAux b l) (hsp : isJsSpace c) : c = ' ' := by
  induction l generalizing b with
  | nil => simp [collapseAux] at h
  | cons a t ih =>
    rw [collapseAux] at h
    by_cases ha : isJsSpace a
    · simp only [ha, if_pos] at h
      by_cases hb : b
      · subst hb; simp only [if_pos] at h; exact ih h
      · simp only [hb, Bool.false_eq_true, if_neg, not_false_iff, List.mem_cons] at h
        rcases h with h | h
        · exact h
        · exact ih h
    · simp only [ha, Bool.false_eq_true, if_neg, not_false_iff, List.mem_cons] at h
      rcases h with h | h
      · exact absurd (h ▸ hsp) (by simp [ha])
      · exact ih h

lemma mem_mapSpaces {l : Str} {c : Char} (h : c ∈ mapSpaces l) : c ∈ l ∨ c = ' ' := by
  rw [mapSpaces] at h
  rcases List.mem_map.mp h with ⟨a, ha, rfl⟩
  by_cases he : isExoticSpace a
  · exact Or.inr (by simp [he])
  · exact Or.inl (by simpa [he] using ha)

lemma dropWhile_head_false {p : Char → Bool} {l : Str} {c : Char} {t : Str}
    (h : l.dropWhile p = c :: t) : p c = false := by
  induction l with
  | nil => simp at h
  | cons a r ih =>
    rw [List.dropWhile_cons] at h
    by_cases hp : p a
    · exact ih (by simpa [hp] using h)
    · obtain ⟨rfl, -⟩ : a = c ∧ r = t := by
        constructor <;> [skip; skip] <;> simp [hp] at h <;> tauto
      simpa using hp

lemma dropWhile_eq_self_of_head {p : Char → Bool} {l : Str}
    (h : ∀ c t, l = c :: t → p c = false) : l.dropWhile p = l := by
  cases l with
  | nil => rfl
  | cons a r => rw [List.dropWhile_cons, h a r rfl]; simp

lemma dropTrailingSp_cons_of_not_sp {c : Char} {t : Str} (h : isJsSpace c = false) :
    dropTrailingSp (c :: t) = c :: dropTrailingSp t := by
  rw [dropTrailingSp]
  simp [h]

lemma noTrailSp_dropTrailingSp (l : Str) : noTrailSp (dropTrailingSp l) = true := by
  induction l with
  | nil => rfl
  | cons a t ih =>
    rw [dropTrailingSp]
    by_cases hc : dropTrailingSp t = [] ∧ isJsSpace a
    · simp [hc, noTrailSp]
    · simp only [if_neg hc]
      rcases ht : dropTrailingSp t with _ | ⟨b, r⟩
      · rw [noTrailSp]
        push_neg at hc
        simp [hc ht]
      · rw [noTrailSp]
        rw [ht] at ih
        exact ih

lemma dropTrailingSp_eq_self {l : Str} (h : noTrailSp l = true) :
    dropTrailingSp l = l := by
  induction l with
  | nil => rfl
  | cons a t ih =>
    cases t with
    | nil =>
      rw [noTrailSp] at h
      rw [dropTrailingSp]
      simp only [dropTrailingSp, if_pos]
      simp only [Bool.not_eq_true'] at h
      simp [h]
    | cons b r =>
      rw [noTrailSp] at h
      have := ih h
      rw [dropTrailingSp, this]
      simp

lemma dropTrailingSp_head? (l : Str) :
    dropTrailingSp l = [] ∨ (dropTrailingSp l).head? = l.head? := by
  cases l with
  | nil => exact Or.inl rfl
  | cons a t =>
    rw [dropTrailingSp]
    by_cases hc : dropTrailingSp t = [] ∧ isJsSpace a
    · simp [hc]
    · simp [hc]

lemma jsTrim_head_false {l : Str} {c : Char} {t : Str}
    (h : jsTrim l = c :: t) : isJsSpace c = false := by
  rw [jsTrim] at h
  rcases dropTrailingSp_head? (l.dropWhile isJsSpace) with h' | h'
  · rw [h'] at h; cases h
  · rw [h] at h'
    rcases hd : l.dropWhile isJsSpace with _ | ⟨d, r⟩
    · rw [hd] at h'; cases h'
    · rw [hd] at h'
      simp only [List.head?] at h'
      have : c = d := by injection h'
      exact this ▸ dropWhile_head_false hd

lemma noTrailSp_jsTrim (l : Str) : noTrailSp (jsTrim l) = true :=
  noTrailSp_dropTrailingSp _

lemma noAdjSp_tail {a : Char} {l : Str} (h : noAdjSp (a :: l) = true) :
    noAdjSp l = true := by
  cases l with
  | nil => rfl
  | cons b r =>
    rw [noAdjSp] at h
    simp only [Bool.and_eq_true] at h
    exact h.2

lemma noAdjSp_cons_of_not_sp {c : Char} {l : Str}
    (hc : isJsSpace c = false) (hl : noAdjSp l = true) : noAdjSp (c :: l) = true := by
  cases l with
  | nil => rfl
  | cons b r =>
    rw [noAdjSp]
    simp [hc, hl]

lemma collapseAux_true_head {l : Str} {c : Char} {t : Str}
    (h : collapseAux true l = c :: t) : isJsSpace c = false := by
  induction l with
  | nil => simp [collapseAux] at h
  | cons a r ih =>
    rw [collapseAux] at h
    by_cases ha : isJsSpace a
    · exact ih (by simpa [ha] using h)
    · have ha' : isJsSpace a = false := by simpa using ha
      simp only [ha', Bool.false_eq_true, if_neg, not_false_iff, List.cons.injEq] at h
      exact h.1 ▸ ha'

lemma noAdjSp_collapseAux (l : Str) : ∀ b, noAdjSp (collapseAux b l) = true := by
  induction l with
  | nil => intro b; rfl
  | cons a t ih =>
    intro b
    rw [collapseAux]
    by_cases ha : isJsSpace a
    · simp only [ha, if_pos]
      by_cases hb : b
      · subst hb; simp only [if_pos]; exact ih true
      · simp only [hb, Bool.false_eq_true, if_neg, not_false_iff]
        rcases hcol : collapseAux true t with _ | ⟨d, r⟩
        · rfl
        · rw [noAdjSp]
          have hd := collapseAux_true_head hcol
          have := ih true
          rw [hcol] at this
          simp [hd, this]
    · have ha' : isJsSpace a = false := by simpa using ha
      simp only [ha', Bool.false_eq_true, if_neg, not_false_iff]
      exact noAdjSp_cons_of_not_sp ha' (ih false)

lemma collapseAux_true_eq_false {l : Str}
    (h : ∀ c t, l = c :: t → isJsSpace c = false) :
    collapseAux true l = collapseAux false l := by
  cases l with
  | nil => rfl
  | cons a t =>
    rw [collapseAux, collapseAux, h a t rfl]
    simp

lemma collapseAux_false_eq_self {l : Str}
    (hsp : ∀ c ∈ l, isJsSpace c = true → c = ' ')
    (hadj : noAdjSp l = true) : collapseAux false l = l := by
  induction l with
  | nil => rfl
  | cons a t ih =>
    rw [collapseAux]
    by_cases ha : isJsSpace a
    · have ha' : a = ' ' := hsp a (List.mem_cons_self _ _) ha
      simp only [ha, if_pos]
      have htail : collapseAux false t = t :=
        ih (fun c hc => hsp c (List.mem_cons_of_mem _ hc)) (noAdjSp_tail hadj)
      have hhead : ∀ c r, t = c :: r → isJsSpace c = false := by
        intro c r hrt
        subst hrt
        rw [noAdjSp] at hadj
        simp only [Bool.and_eq_true] at hadj
        have := hadj.1
        simp only [Bool.not_eq_true', decide_eq_false_iff_not, not_and] at this
        by_contra hcc
        simp only [Bool.not_eq_false] at hcc
        exact absurd (this (by simp [ha])) (by simp [hcc])
      rw [collapseAux_true_eq_false hhead, htail, ha']
      simp
    · simp only [ha, Bool.false_eq_true, if_neg, not_false_iff]
      rw [ih (fun c hc => hsp c (List.mem_cons_of_mem _ hc)) (noAdjSp_tail hadj)]

lemma noAdjSp_dropWhile {p : Char → Bool} {l : Str} (h : noAdjSp l = true) :
    noAdjSp (l.dropWhile p) = true := by
  induction l with
  | nil => exact h
  | cons a t ih =>
    rw [List.dropWhile_cons]
    by_cases hp : p a
    · simp only [hp, if_pos]
      exact ih (noAdjSp_tail h)
    · simpa [hp] using h

lemma noAdjSp_dropTrailingSp {l : Str} (h : noAdjSp l = true) :
    noAdjSp (dropTrailingSp l) = true := by
  induction l with
  | nil => exact h
  | cons a t ih =>
    rw [dropTrailingSp]
    by_cases hc : dropTrailingSp t = [] ∧ isJsSpace a
    · simp [hc, noAdjSp]
    · simp only [if_neg hc]
      have ht := ih (noAdjSp_tail h)
      rcases hdt : dropTrailingSp t with _ | ⟨b, r⟩
      · rfl
      · rw [noAdjSp]
        rw [hdt] at ht
        rcases dropTrailingSp_head? t with h' | h'
        · rw [h'] at hdt; cases hdt
        · rw [hdt] at h'
          rcases t with _ | ⟨b', r'⟩
          · cases h'
          · simp only [List.head?] at h'
            have hbb : b = b' := by injection h'
            subst hbb
            rw [noAdjSp] at h
            simp only [Bool.and_eq_true] at h
            have h1 := h.1
            simp only [Bool.not_eq_true', decide_eq_false_iff_not, not_and] at h1
            simp only [ht, Bool.and_true, Bool.not_eq_true', decide_eq_false_iff_not, not_and]
            exact h1

lemma exotic_isJsSpace {c : Char} (h : isExoticSpace c = true) : isJsSpace c = true := by
  simp only [isExoticSpace, decide_eq_true_eq] at h
  simp only [isJsSpace, decide_eq_true_eq]
  omega

lemma not_lead_not_sp {c : Char} (h : inLeadClass c = false) : isJsSpace c = false := by
  simp only [inLeadClass, decide_eq_false_iff_not, not_or] at h
  simpa using h.2

lemma map_eq_self_of_mem {f : Char → Char} {l : Str}
    (h : ∀ c ∈ l, f c = c) : l.map f = l := by
  induction l with
  | nil => rfl
  | cons a t ih =>
    rw [List.map_cons, h a (List.mem_cons_self _ _),
      ih (fun c hc => h c (List.mem_cons_of_mem _ hc))]

lemma cleanText_no_pua {l : Str} {c : Char} (h : c ∈ cleanText l) : isPUA c = false := by
  rw [cleanText] at h
  rcases mem_collapseAux (mem_of_mem_jsTrim h) with h1 | rfl
  · rcases mem_mapSpaces h1 with h2 | rfl
    · rw [removeZeroWidth, List.mem_filter] at h2
      have h3 := mem_of_mem_dropWhile (p := inLeadClass) (by simpa [stripLeading] using h2.1)
      rw [removePUA, List.mem_filter] at h3
      simpa using h3.2
    · decide
  · decide

lemma cleanText_no_zw {l : Str} {c : Char} (h : c ∈ cleanText l) :
    isZeroWidth c = false := by
  rw [cleanText] at h
  rcases mem_collapseAux (mem_of_mem_jsTrim h) with h1 | rfl
  · rcases mem_mapSpaces h1 with h2 | rfl
    · rw [removeZeroWidth, List.mem_filter] at h2
      simpa using h2.2
    · decide
  · decide

lemma cleanText_sp {l : Str} {c : Char} (h : c ∈ cleanText l)
    (hsp : isJsSpace c = true) : c = ' ' := by
  rw [cleanText] at h
  exact sp_mem_collapseAux (mem_of_mem_jsTrim h) hsp

lemma cleanText_noAdjSp (l : Str) : noAdjSp (cleanText l) = true := by
  rw [cleanText, jsTrim]
  exact noAdjSp_dropTrailingSp (noAdjSp_dropWhile (noAdjSp_collapseAux _ false))

lemma cleanText_head_not_lead {l : Str} (h : ∀ c ∈ l, isShieldZW c = false) :
    ∀ c t, cleanText l = c :: t → inLeadClass c = false := by
  intro c t hct
  rw [cleanText] at hct
  rcases hb : stripLeading (removePUA l) with _ | ⟨d, r⟩
  · rw [hb] at hct
    simp [removeZeroWidth, mapSpaces, collapseSpaces, collapseAux, jsTrim,
      dropTrailingSp, List.dropWhile] at hct
  · have hd_lead : inLeadClass d = false := by
      rw [stripLeading] at hb
      exact dropWhile_head_false hb
    have hd_mem : d ∈ l := by
      have : d ∈ stripLeading (removePUA l) := by rw [hb]; exact List.mem_cons_self _ _
      have h2 := mem_of_mem_dropWhile (p := inLeadClass) (by simpa [stripLeading] using this)
      rw [removePUA, List.mem_filter] at h2
      exact h2.1
    have hd_sp : isJsSpace d = false := not_lead_not_sp hd_lead
    have hd_zw : isZeroWidth d = false := by
      have hsd := h d hd_mem
      simp only [isShieldZW, decide_eq_false_iff_not, not_or] at hsd
      have hfe : d.toNat ≠ 0xFEFF := by
        intro hfe
        have : isJsSpace d = true := by
          simp only [isJsSpace, decide_eq_true_eq]; omega
        rw [this] at hd_sp; cases hd_sp
      simp only [isZeroWidth, decide_eq_false_iff_not, not_or]
      exact ⟨hsd.1, hsd.2.1, hsd.2.2, hfe⟩
    have hd_ex : isExoticSpace d = false := by
      by_contra hx
      simp only [Bool.not_eq_false] at hx
      rw [exotic_isJsSpace hx] at hd_sp; cases hd_sp
    rw [hb] at hct
    rw [removeZeroWidth, List.filter_cons, hd_zw] at hct
    simp only [Bool.not_false, if_pos] at hct
    rw [mapSpaces, List.map_cons] at hct
    simp only [hd_ex, Bool.false_eq_true, if_neg, not_false_iff] at hct
    rw [collapseSpaces, collapseAux] at hct
    simp only [hd_sp, Bool.false_eq_true, if_neg, not_false_iff] at hct
    rw [jsTrim, List.dropWhile_cons] at hct
    simp only [hd_sp, Bool.false_eq_true, if_neg, not_false_iff] at hct
    rw [dropTrailingSp_cons_of_not_sp hd_sp] at hct
    have : d = c := by injection hct
    exact this ▸ hd_lead

lemma cleanText_idem_aux {l : Str} (h : ∀ c ∈ l, isShieldZW c = false) :
    cleanText (cleanText l) = cleanText l := by
  have h1 : removePUA (cleanText l) = cleanText l := by
    rw [removePUA]
    apply List.filter_eq_self.mpr
    intro a ha
    simp [cleanText_no_pua ha]
  have h2 : stripLeading (cleanText l) = cleanText l := by
    rw [stripLeading]
    exact dropWhile_eq_self_of_head (fun c t hct => cleanText_head_not_lead h c t hct)
  have h3 : removeZeroWidth (cleanText l) = cleanText l := by
    rw [removeZeroWidth]
    apply List.filter_eq_self.mpr
    intro a ha
    simp [cleanText_no_zw ha]
  have h4 : mapSpaces (cleanText l) = cleanText l := by
    rw [mapSpaces]
    apply map_eq_self_of_mem
    intro c hc
    by_cases hx : isExoticSpace c = true
    · have hcsp : c = ' ' := cleanText_sp hc (exotic_isJsSpace hx)
      rw [hcsp] at hx
      cases hx
    · simp only [Bool.not_eq_true] at hx
      simp [hx]
  have h5 : collapseSpaces (cleanText l) = cleanText l := by
    rw [collapseSpaces]
    exact collapseAux_false_eq_self (fun c hc hsp => cleanText_sp hc hsp) (cleanText_noAdjSp l)
  have h6 : jsTrim (cleanText l) = cleanText l := by
    rw [jsTrim]
    rw [dropWhile_eq_self_of_head (p := isJsSpace) ?hd]
    case hd =>
      intro c t hct
      have : jsTrim (collapseSpaces (mapSpaces (removeZeroWidth (stripLeading
          (removePUA l))))) = c :: t := by rw [← cleanText]; exact hct
      exact jsTrim_head_false this
    apply dropTrailingSp_eq_self
    rw [cleanText]
    exact noTrailSp_jsTrim _
  calc cleanText (cleanText l)
      = jsTrim (collapseSpaces (mapSpaces (removeZeroWidth (stripLeading
          (removePUA (cleanText l)))))) := rfl
    _ = cleanText l := by rw [h1, h2, h3, h4, h5, h6]

/-! ### Claim C5: idempotence of the text normalizer -/

/-- Claim C5, counterexample: the normalizer is not idempotent.  On the
input `"​-a"` (zero-width space, hyphen, letter) the first pass removes
the zero-width space after the leading-junk pass has already run, leaving a
leading hyphen that only the second pass strips: `cleanText` gives `"-a"`,
a second `cleanText` gives `"a"`. -/
theorem C5_counterexample_cleanText_not_idempotent :
    cleanText (cleanText (strOf "​-a")) ≠ cleanText (strOf "​-a") := by
  decide

/-- Claim C5, amended: `cleanText` (and the identical `cleanAddressText`) is
idempotent on every input containing no zero-width code point U+200B, U+200C
or U+200D; such characters can shield leading bullet/dash characters from
the leading-junk pass of the first application. -/
theorem C5_cleanText_idempotent_of_no_zero_width (l : Str)
    (h : ∀ c ∈ l, isShieldZW c = false) :
    cleanText (cleanText l) = cleanText l :=
  cleanText_idem_aux h

/-- Claim C5, witness: the amended idempotence applied to a concrete input
exercising private-use, bullet and exotic-space removal. -/
theorem C5_witness :
    (∀ c ∈ strOf " ·Hello World ", isShieldZW c = false) ∧
      cleanText (cleanText (strOf " ·Hello World ")) =
        cleanText (strOf " ·Hello World ") :=
  ⟨by decide, C5_cleanText_idempotent_of_no_zero_width _ (by decide)⟩

/-! ### Validator lemmas and claims C7, C8 -/

lemma dropTrailingSp_nil_all_sp {l : Str} (h : dropTrailingSp l = []) :
    ∀ c ∈ l, isJsSpace c = true := by
  induction l with
  | nil => intro c hc; cases hc
  | cons a t ih =>
    rw [dropTrailingSp] at h
    by_cases hc : dropTrailingSp t = [] ∧ isJsSpace a
    · intro c hcm
      rcases List.mem_cons.mp hcm with rfl | hcm
      · exact hc.2
      · exact ih hc.1 c hcm
    · rw [if_neg hc] at h; cases h

lemma jsTrim_nil_all_sp {l : Str} (h : jsTrim l = []) :
    ∀ c ∈ l, isJsSpace c = true := by
  rw [jsTrim] at h
  intro c hc
  rw [← List.takeWhile_append_dropWhile (p := isJsSpace) (l := l)] at hc
  rcases List.mem_append.mp hc with hc | hc
  · exact List.mem_takeWhile_imp hc
  · exact dropTrailingSp_nil_all_sp h c hc

lemma digit_not_sp {c : Char} (h : isDigitChar c = true) : isJsSpace c = false := by
  simp only [isDigitChar, decide_eq_true_eq] at h
  simp only [isJsSpace, decide_eq_false_iff_not]
  omega

/-- Claim C7: characterisation of `isValidAddressLine` — true iff the input
has a digit, has a word-bounded street-suffix token, and matches none of the
improper patterns — together with the three concrete examples of the spec. -/
theorem C7_isValidAddressLine_characterisation :
    (∀ l : Str, isValidAddressLine l = true ↔
      (hasDigit l = true ∧ hasStreetSuffix l = true ∧ improperAddress l = false)) ∧
    isValidAddressLine (strOf "123 Main St") = true ∧
    isValidAddressLine (strOf "4.2(318) Hotel") = false ∧
    isValidAddressLine (strOf "") = false := by
  refine ⟨?_, by decide, by decide, by decide⟩
  intro l
  rw [isValidAddressLine]
  by_cases hg : l = [] ∨ jsTrim l = []
  · simp only [hg, if_pos, Bool.false_eq_true, false_iff, not_and]
    intro hd
    exfalso
    rw [hasDigit, List.any_eq_true] at hd
    obtain ⟨c, hc, hdig⟩ := hd
    have hsp : isJsSpace c = true := by
      rcases hg with rfl | hg
      · cases hc
      · exact jsTrim_nil_all_sp hg c hc
    rw [digit_not_sp hdig] at hsp
    cases hsp
  · simp only [hg, if_neg, not_false_iff, Bool.and_eq_true, Bool.not_eq_true']
    tauto

/-- Claim C8: characterisation of `isValidCity` — it agrees with the
claim-shaped predicate `cityValidSpec` (trimmed input non-empty, length in
[2, 50], only letters/whitespace/apostrophes/hyphens/periods, starts with a
letter, none of the invalid patterns) — together with the three concrete
examples of the spec. -/
theorem C8_isValidCity_characterisation :
    (∀ l : Str, isValidCity l = cityValidSpec l) ∧
    isValidCity (strOf "Springfield") = true ∧
    isValidCity (strOf "90210") = false ∧
    isValidCity (strOf "Unknown") = false := by
  refine ⟨?_, by decide, by decide, by decide⟩
  intro l
  rw [isValidCity, cityValidSpec]
  by_cases h0 : jsTrim l = []
  · simp [h0]
  · simp only [h0, if_neg, not_false_iff]
    by_cases h1 : (jsTrim l).length < 2
    · have h2 : ¬(2 ≤ (jsTrim l).length) := by omega
      simp [h1, h2]
    · simp only [h1, if_neg, not_false_iff]
      by_cases h2 : (jsTrim l).all cityCharOk = true
      · have hcond : (!(decide (jsTrim l ≠ []) && (jsTrim l).all cityCharOk)) = false := by
          simp [h0, h2]
        simp only [hcond, Bool.false_eq_true, if_neg, not_false_iff]
        by_cases h3 : cityInvalid (jsTrim l) = true
        · simp [h3]
        · simp only [Bool.not_eq_true] at h3
          simp only [h3, Bool.false_eq_true, if_neg, not_false_iff]
          by_cases h4 : (jsTrim l).length > 50
          · have h5 : ¬((jsTrim l).length ≤ 50) := by omega
            simp [h4, h5]
          · have h5 : (jsTrim l).length ≤ 50 := by omega
            have h6 : 2 ≤ (jsTrim l).length := by omega
            simp [h4, h5, h6, h0, h2, h3, List.isEmpty_iff]
      · simp only [Bool.not_eq_true] at h2
        have hcond : (!(decide (jsTrim l ≠ []) && (jsTrim l).all cityCharOk)) = true := by
          simp [h2]
        simp [hcond, h2]

/-! ### Claim C9: the two-segment branch of the parser -/

/-- Claim C9: whenever the normalized input splits on commas into at least
two segments, `parseAddress` returns the first trimmed segment as the
address line and the second trimmed segment with any trailing
state-zip suffix stripped (re-trimmed) as the city; and on
`"123 Main St, Springfield, IL 62704"` it yields
`("123 Main St", "Springfield")`. -/
theorem C9_parseAddress_two_segments :
    (∀ input : Str,
      2 ≤ ((splitOnChar ',' (cleanAddressText input)).map jsTrim).length →
      parseAddress input =
        (((splitOnChar ',' (cleanAddressText input)).map jsTrim).headD [],
         jsTrim (stripStateZip
           (((splitOnChar ',' (cleanAddressText input)).map jsTrim)[1]?.getD [])))) ∧
    parseAddress (strOf "123 Main St, Springfield, IL 62704") =
      (strOf "123 Main St", strOf "Springfield") := by
  constructor
  · intro input h
    rw [parseAddress]
    simp only [h, if_pos]
  · decide

/-- Claim C9, witness: the two-segment branch applied to a concrete
two-segment input. -/
theorem C9_witness :
    2 ≤ ((splitOnChar ',' (cleanAddressText (strOf "10 Oak St, Denver"))).map jsTrim).length ∧
    parseAddress (strOf "10 Oak St, Denver") =
      (((splitOnChar ',' (cleanAddressText (strOf "10 Oak St, Denver"))).map jsTrim).headD [],
       jsTrim (stripStateZip
         (((splitOnChar ',' (cleanAddressText (strOf "10 Oak St, Denver"))).map jsTrim)[1]?.getD []))) :=
  ⟨by decide, C9_parseAddress_two_segments.1 _ (by decide)⟩

/-! ### Sharding lemmas and claims C2, C4 -/

lemma ceilDiv_mul_ge {n k : Nat} (hk : 1 ≤ k) : n ≤ k * ceilDiv n k := by
  rw [ceilDiv]
  have hmod := Nat.div_add_mod (n + k - 1) k
  have hlt : (n + k - 1) % k < k := Nat.mod_lt _ (by omega)
  omega

lemma shardRange_eq_drop_take {α : Type} (l : List α) (k i : Nat) :
    shardRange l k i =
      (l.drop (i * ceilDiv l.length k)).take (ceilDiv l.length k) := by
  rw [shardRange, sliceJs]
  set c := ceilDiv l.length k with hc
  set s := i * c with hs
  have harith : min (s + c) l.length - s = min c (l.length - s) := by omega
  rw [harith]
  rcases le_or_lt c (l.length - s) with h | h
  · rw [min_eq_left h]
  · rw [min_eq_right (le_of_lt h)]
    have hlen : (l.drop s).length = l.length - s := List.length_drop s l
    rw [List.take_of_length_le (by omega), List.take_of_length_le (by omega)]

lemma flatten_drop_take_ranges {α : Type} :
    ∀ (k : Nat) (c : Nat) (l : List α), l.length ≤ k * c →
      ((List.range k).map (fun i => (l.drop (i * c)).take c)).flatten = l := by
  intro k
  induction k with
  | zero =>
    intro c l h
    simp only [Nat.zero_mul, Nat.le_zero, List.length_eq_zero] at h
    simp [h]
  | succ k ih =>
    intro c l h
    rw [List.range_succ_eq_map, List.map_cons, List.map_map, List.flatten_cons]
    have hmap : (List.range k).map ((fun i => (l.drop (i * c)).take c) ∘ Nat.succ) =
        (List.range k).map (fun i => ((l.drop c).drop (i * c)).take c) := by
      apply List.map_congr_left
      intro a _
      simp only [Function.comp_apply]
      rw [List.drop_drop]
      have hnum : a.succ * c = c + c * a := by
        rw [Nat.succ_eq_add_one]
        ring
      rw [hnum, Nat.mul_comm c a]
    rw [hmap, ih c (l.drop c) ?hlen]
    case hlen =>
      rw [List.length_drop]
      have hkc : (k + 1) * c = k * c + c := by ring
      omega
    simp [List.take_append_drop]

/-- Claim C2, amended: for every pending list and every `k ≥ 1`, the shard
ranges (before the cap) are contiguous slices in table order — their
in-order concatenation is exactly the pending list, so every pending row is
covered exactly once without overlap — and shard `i` has length
`min (ceil(n/k), n − i·ceil(n/k))`: full size `ceil(n/k)` while rows
remain, trailing shards (not only the last) truncated or empty. -/
theorem C2_shard_partition {α : Type} (l : List α) (k : Nat) (hk : 1 ≤ k) :
    ((List.range k).map (shardRange l k)).flatten = l ∧
    (∀ i, shardRange l k i =
      (l.drop (i * ceilDiv l.length k)).take (ceilDiv l.length k)) ∧
    (∀ i, (shardRange l k i).length =
      min (ceilDiv l.length k) (l.length - i * ceilDiv l.length k)) := by
  refine ⟨?_, fun i => shardRange_eq_drop_take l k i, ?_⟩
  · have hmap : (List.range k).map (shardRange l k) =
        (List.range k).map (fun i => (l.drop (i * ceilDiv l.length k)).take
          (ceilDiv l.length k)) :=
      List.map_congr_left (fun i _ => shardRange_eq_drop_take l k i)
    rw [hmap]
    exact flatten_drop_take_ranges k _ l (ceilDiv_mul_ge hk)
  · intro i
    rw [shardRange_eq_drop_take, List.length_take, List.length_drop]

/-- Claim C2, counterexample: with a single pending row and three shards,
`ceil(1/3) = 1` but shard 1 — which is not the last shard — gets an empty
range, so the ranges are not "of size ceil(n/k), the last possibly
shorter". -/
theorem C2_counterexample :
    ceilDiv (List.length [(("10001", "NY") : String × String)]) 3 = 1 ∧
    (shardRange [(("10001", "NY") : String × String)] 3 1).length = 0 ∧
    (1 : Nat) ≠ 3 - 1 := by
  decide

/-- Claim C2, witness: the partition property at a concrete pending list
with two shards. -/
theorem C2_witness :
    ((List.range 2).map (shardRange [10, 20, 30] 2)).flatten = [10, 20, 30] :=
  (C2_shard_partition [10, 20, 30] 2 (by decide)).1

/-- Claim C4, amended: whenever `totalShards ≥ 2`, the selection equals the
first `maxPerShard` entries of the shard's range, hence has at most
`maxPerShard` entries; with `totalShards = 1` the sharding block — and with
it the cap — is skipped entirely. -/
theorem C4_cap_for_multiple_shards {α : Type} (l : List α) (k i m : Nat)
    (hk : 2 ≤ k) :
    applySharding l k i m = (shardRange l k i).take m ∧
    (applySharding l k i m).length ≤ m := by
  have hgoal : applySharding l k i m = (shardRange l k i).take m := by
    have hk1 : 1 < k := by omega
    simp only [applySharding, shardRange, sliceJs, if_pos hk1]
    rw [List.take_take]
    congr 1
    omega
  refine ⟨hgoal, ?_⟩
  rw [hgoal]
  exact List.length_take_le m _

/-- Claim C4, counterexample: with `totalShards = 1` the cap is bypassed —
two pending rows are selected although `maxPerShard = 1`. -/
theorem C4_counterexample :
    readZipCodesFromCSV
        [⟨"10001", "NY", "", ""⟩, ⟨"10002", "NY", "", ""⟩]
        TargetState.all 0 1 1 =
      [("10001", "NY"), ("10002", "NY")] ∧
    ¬(readZipCodesFromCSV
        [⟨"10001", "NY", "", ""⟩, ⟨"10002", "NY", "", ""⟩]
        TargetState.all 0 1 1).length ≤ 1 := by
  decide

/-- Claim C4, witness: the cap equation at a concrete list with two
shards. -/
theorem C4_witness :
    applySharding [10, 20, 30] 2 0 1 = (shardRange [10, 20, 30] 2 0).take 1 :=
  (C4_cap_for_multiple_shards [10, 20, 30] 2 0 1 (by decide)).1

/-! ### Row-update lemmas and claim C3 -/

lemma splitOnChar_ne_nil (sep : Char) (l : Str) : splitOnChar sep l ≠ [] := by
  cases l with
  | nil => simp [splitOnChar]
  | cons c rest =>
    rw [splitOnChar]
    by_cases hc : c = sep
    · simp [hc]
    · simp only [hc, if_neg, not_false_iff]
      rcases splitOnChar sep rest with _ | ⟨h, t⟩ <;> simp

lemma splitOnChar_no_sep (sep : Char) (l : Str) :
    ∀ x ∈ splitOnChar sep l, sep ∉ x := by
  induction l with
  | nil =>
    intro x hx
    simp only [splitOnChar, List.mem_singleton] at hx
    simp [hx]
  | cons c rest ih =>
    intro x hx
    rw [splitOnChar] at hx
    by_cases hc : c = sep
    · simp only [hc, if_pos, List.mem_cons] at hx
      rcases hx with rfl | hx
      · simp
      · exact ih x hx
    · simp only [hc, if_neg, not_false_iff] at hx
      rcases hr : splitOnChar sep rest with _ | ⟨h, t⟩
      · rw [hr] at hx
        simp only [List.mem_singleton] at hx
        subst hx
        simp only [List.mem_singleton]
        intro hcc
        exact hc hcc.symm
      · rw [hr] at hx
        simp only [List.mem_cons] at hx
        rcases hx with rfl | hx
        · simp only [List.mem_cons, not_or]
          exact ⟨fun hcc => hc hcc.symm, ih h (hr ▸ List.mem_cons_self _ _)⟩
        · exact ih x (hr ▸ List.mem_cons_of_mem _ hx)

lemma mem_of_mem_splitOnChar (sep : Char) (l : Str) :
    ∀ x ∈ splitOnChar sep l, ∀ c ∈ x, c ∈ l := by
  induction l with
  | nil =>
    intro x hx c hc
    simp only [splitOnChar, List.mem_singleton] at hx
    subst hx
    cases hc
  | cons a rest ih =>
    intro x hx c hc
    rw [splitOnChar] at hx
    by_cases hasep : a = sep
    · simp only [hasep, if_pos, List.mem_cons] at hx
      rcases hx with rfl | hx
      · cases hc
      · exact List.mem_cons_of_mem _ (ih x hx c hc)
    · simp only [hasep, if_neg, not_false_iff] at hx
      rcases hr : splitOnChar sep rest with _ | ⟨h, t⟩
      · rw [hr] at hx
        simp only [List.mem_singleton] at hx
        subst hx
        rcases List.mem_singleton.mp hc with rfl
        exact List.mem_cons_self _ _
      · rw [hr] at hx
        simp only [List.mem_cons] at hx
        rcases hx with rfl | hx
        · rcases List.mem_cons.mp hc with rfl | hc
          · exact List.mem_cons_self _ _
          · exact List.mem_cons_of_mem _ (ih h (hr ▸ List.mem_cons_self _ _) c hc)
        · exact List.mem_cons_of_mem _ (ih x (hr ▸ List.mem_cons_of_mem _ hx) c hc)

lemma splitOnChar_of_not_mem {sep : Char} {x : Str} (h : sep ∉ x) :
    splitOnChar sep x = [x] := by
  induction x with
  | nil => rfl
  | cons c rest ih =>
    rw [splitOnChar]
    have hc : ¬c = sep := fun hcc => h (hcc ▸ List.mem_cons_self _ _)
    simp only [hc, if_neg, not_false_iff]
    rw [ih (fun hm => h (List.mem_cons_of_mem _ hm))]

lemma splitOnChar_append_sep {sep : Char} {x m : Str} (h : sep ∉ x) :
    splitOnChar sep (x ++ sep :: m) = x :: splitOnChar sep m := by
  induction x with
  | nil =>
    rw [List.nil_append, splitOnChar]
    simp
  | cons c rest ih =>
    have hc : ¬c = sep := fun hcc => h (hcc ▸ List.mem_cons_self _ _)
    rw [List.cons_append, splitOnChar]
    simp only [hc, if_neg, not_false_iff]
    rw [ih (fun hm => h (List.mem_cons_of_mem _ hm))]

lemma splitOnChar_joinChar {sep : Char} :
    ∀ (xs : List Str), xs ≠ [] → (∀ x ∈ xs, sep ∉ x) →
      splitOnChar sep (joinChar sep xs) = xs := by
  intro xs
  induction xs with
  | nil => intro h; exact absurd rfl h
  | cons x t ih =>
    intro _ hsep
    cases t with
    | nil =>
      rw [joinChar]
      exact splitOnChar_of_not_mem (hsep x (List.mem_cons_self _ _))
    | cons y r =>
      rw [joinChar, splitOnChar_append_sep (hsep x (List.mem_cons_self _ _))]
      rw [ih (by simp) (fun z hz => hsep z (List.mem_cons_of_mem _ hz))]

lemma mem_of_mem_set {α : Type} {v x : α} :
    ∀ {l : List α} {i : Nat}, x ∈ l.set i v → x ∈ l ∨ x = v := by
  intro l
  induction l with
  | nil => intro i h; simp at h
  | cons a t ih =>
    intro i h
    cases i with
    | zero =>
      rw [List.set_cons_zero] at h
      rcases List.mem_cons.mp h with rfl | h
      · exact Or.inr rfl
      · exact Or.inl (List.mem_cons_of_mem _ h)
    | succ n =>
      rw [List.set_cons_succ] at h
      rcases List.mem_cons.mp h with rfl | h
      · exact Or.inl (List.mem_cons_self _ _)
      · rcases ih h with h | h
        · exact Or.inl (List.mem_cons_of_mem _ h)
        · exact Or.inr h

lemma mem_fixHeader {L : List Str} {x : Str} (h : x ∈ fixHeader L) :
    x ∈ L ∨ x = strOf "zipcode,state,address,city" := by
  rw [fixHeader] at h
  by_cases hc : (!((splitOnChar ',' (L.headD [])).contains (strOf "address") &&
      (splitOnChar ',' (L.headD [])).contains (strOf "city"))) = true
  · rw [if_pos hc] at h
    exact mem_of_mem_set h
  · rw [if_neg hc] at h
    exact Or.inl h

lemma fixHeader_getElem_pos {L : List Str} {j : Nat} (h : 1 ≤ j) :
    (fixHeader L)[j]? = L[j]? := by
  rw [fixHeader]
  by_cases hc : (!((splitOnChar ',' (L.headD [])).contains (strOf "address") &&
      (splitOnChar ',' (L.headD [])).contains (strOf "city"))) = true
  · rw [if_pos hc]
    exact List.getElem?_set_ne (by omega)
  · rw [if_neg hc]

lemma fixHeader_length (L : List Str) : (fixHeader L).length = L.length := by
  rw [fixHeader]
  by_cases hc : (!((splitOnChar ',' (L.headD [])).contains (strOf "address") &&
      (splitOnChar ',' (L.headD [])).contains (strOf "city"))) = true
  · rw [if_pos hc, List.length_set]
  · rw [if_neg hc]

lemma getD_nil_mem_or_nil {l : List Str} (i : Nat) :
    l[i]?.getD [] ∈ l ∨ l[i]?.getD [] = ([] : Str) := by
  rcases h : l[i]? with _ | v
  · simp [h]
  · simp only [h, Option.getD_some]
    exact Or.inl (List.getElem?_mem h)

lemma mem_of_mem_stripQuotesOnce {x : Str} {ch : Char}
    (h : ch ∈ stripQuotesOnce x) : ch ∈ x := by
  simp only [stripQuotesOnce] at h
  set l1 := if x.head? = some '"' then x.tail else x with hl1
  have hsub1 : ∀ d ∈ l1, d ∈ x := by
    intro d hd
    rw [hl1] at hd
    by_cases hx : x.head? = some '"'
    · rw [if_pos hx] at hd
      exact List.mem_of_mem_tail hd
    · rwa [if_neg hx] at hd
  by_cases h2 : l1 ≠ [] ∧ l1.getLast? = some '"'
  · rw [if_pos h2] at h
    exact hsub1 _ (List.dropLast_subset _ h)
  · rw [if_neg h2] at h
    exact hsub1 _ h

lemma rowMatches_nil (z s : Str) : rowMatches [] z s = false := by
  simp [rowMatches, jsTrim, dropTrailingSp, List.dropWhile]

lemma mem_rebuildRow {line a c : Str} {ch : Char} (h : ch ∈ rebuildRow line a c) :
    ch ∈ line ∨ ch ∈ a ∨ ch ∈ c ∨ ch = ',' ∨ ch = '"' := by
  simp only [rebuildRow] at h
  set stripped := (splitOnChar ',' line ++
      List.replicate (4 - (splitOnChar ',' line).length) (strOf "\"\"")).map
        stripQuotesOnce with hdef
  have hstr : ∀ y ∈ stripped, ∀ d ∈ y, d ∈ line ∨ d = '"' := by
    intro y hy d hd
    rw [hdef] at hy
    rcases List.mem_map.mp hy with ⟨p, hp, rfl⟩
    have hd2 := mem_of_mem_stripQuotesOnce hd
    rcases List.mem_append.mp hp with hp | hp
    · exact Or.inl (mem_of_mem_splitOnChar ',' line p hp d hd2)
    · rw [List.eq_of_mem_replicate hp] at hd2
      rcases List.mem_cons.mp hd2 with rfl | hd2
      · exact Or.inr rfl
      · rcases List.mem_singleton.mp hd2 with rfl
        exact Or.inr rfl
  have h0 : ∀ d ∈ stripped.headD [], d ∈ line ∨ d = '"' := by
    cases hs : stripped with
    | nil => intro d hd; cases hd
    | cons u v =>
      intro d hd
      exact hstr u (hs ▸ List.mem_cons_self _ _) d (by simpa using hd)
  have h1 : ∀ d ∈ stripped[1]?.getD [], d ∈ line ∨ d = '"' := by
    rcases getD_nil_mem_or_nil (l := stripped) 1 with hm | hm
    · exact fun d hd => hstr _ hm d hd
    · rw [hm]
      intro d hd
      cases hd
  simp only [List.mem_append, List.mem_cons, List.not_mem_nil, or_false] at h
  rcases h with ((((((h | rfl) | h) | (rfl | rfl)) | h) | (rfl | rfl | rfl)) | h) | rfl
  · rcases h0 ch h with hm | hm
    · exact Or.inl hm
    · exact Or.inr (Or.inr (Or.inr (Or.inr hm)))
  · exact Or.inr (Or.inr (Or.inr (Or.inl rfl)))
  · rcases h1 ch h with hm | hm
    · exact Or.inl hm
    · exact Or.inr (Or.inr (Or.inr (Or.inr hm)))
  · exact Or.inr (Or.inr (Or.inr (Or.inl rfl)))
  · exact Or.inr (Or.inr (Or.inr (Or.inr rfl)))
  · exact Or.inr (Or.inl h)
  · exact Or.inr (Or.inr (Or.inr (Or.inr rfl)))
  · exact Or.inr (Or.inr (Or.inr (Or.inl rfl)))
  · exact Or.inr (Or.inr (Or.inr (Or.inr rfl)))
  · exact Or.inr (Or.inr (Or.inl h))
  · exact Or.inr (Or.inr (Or.inr (Or.inr rfl)))

lemma no_nl_rebuildRow {line a c : Str} (hl : '\n' ∉ line) (ha : '\n' ∉ a)
    (hc : '\n' ∉ c) : '\n' ∉ rebuildRow line a c := by
  intro hm
  rcases mem_rebuildRow hm with h | h | h | h | h
  · exact hl h
  · exact ha h
  · exact hc h
  · cases h
  · cases h

lemma findRowIdxAux_some {z s : Str} :
    ∀ (suffix : List Str) (i j : Nat), findRowIdxAux z s i suffix = some j →
      i ≤ j ∧ j - i < suffix.length ∧
      rowMatches (suffix[j - i]?.getD []) z s = true ∧
      ∀ t, t < j - i → rowMatches (suffix[t]?.getD []) z s = false := by
  intro suffix
  induction suffix with
  | nil => intro i j h; cases h
  | cons line rest ih =>
    intro i j h
    rw [findRowIdxAux] at h
    by_cases hm : rowMatches line z s = true
    · rw [if_pos hm] at h
      have hij : i = j := by injection h
      subst hij
      refine ⟨le_refl _, by simp, ?_, ?_⟩
      · simpa [Nat.sub_self] using hm
      · intro t ht
        omega
    · rw [if_neg hm] at h
      obtain ⟨h1, h2, h3, h4⟩ := ih (i + 1) j h
      refine ⟨by omega, ?_, ?_, ?_⟩
      · simp only [List.length_cons]
        omega
      · have hji : j - i = (j - (i + 1)) + 1 := by omega
        rw [hji]
        simpa using h3
      · intro t ht
        cases t with
        | zero =>
          simpa using eq_false_of_ne_true hm
        | succ n =>
          have := h4 n (by omega)
          simpa using this

lemma findRowIdxAux_eq_none {z s : Str} :
    ∀ (suffix : List Str) (i : Nat), findRowIdxAux z s i suffix = none →
      ∀ t : Nat, rowMatches (suffix[t]?.getD []) z s = false := by
  intro suffix
  induction suffix with
  | nil =>
    intro i _ t
    simpa using rowMatches_nil z s
  | cons line rest ih =>
    intro i h t
    rw [findRowIdxAux] at h
    by_cases hm : rowMatches line z s = true
    · rw [if_pos hm] at h; cases h
    · rw [if_neg hm] at h
      cases t with
      | zero => simpa using eq_false_of_ne_true hm
      | succ n => simpa using ih (i + 1) h n

lemma findRowIdxAux_none_of {z s : Str} :
    ∀ (suffix : List Str) (i : Nat),
      (∀ t : Nat, rowMatches (suffix[t]?.getD []) z s = false) →
      findRowIdxAux z s i suffix = none := by
  intro suffix
  induction suffix with
  | nil => intro i _; rfl
  | cons line rest ih =>
    intro i h
    rw [findRowIdxAux]
    have h0 : rowMatches line z s = false := by simpa using h 0
    rw [if_neg (by simp [h0])]
    exact ih (i + 1) (fun t => by simpa using h (t + 1))

/-- Claim C3, amended: `updateFinalCSV` locates the first data row (index
≥ 1) whose first two comma-separated fields equal the key; when none
matches it returns without writing; when row `i` matches, the written file
has row `i` rebuilt as exactly four fields — the first two fields with
surrounding quotes stripped, then the quoted address and city, any further
fields dropped — and every other data row unchanged. -/
theorem C3_updateFinalCSV_frame (content z s a c : Str)
    (ha : '\n' ∉ a) (hc : '\n' ∉ c) :
    (updateFinalCSV content z s a c = none ↔
      (∀ j : Nat, 1 ≤ j →
        rowMatches ((splitOnChar '\n' content)[j]?.getD []) z s = false)) ∧
    (∀ i, findRowIdx (fixHeader (splitOnChar '\n' content)) z s = some i →
      1 ≤ i ∧
      rowMatches ((splitOnChar '\n' content)[i]?.getD []) z s = true ∧
      (∀ j : Nat, 1 ≤ j → j < i →
        rowMatches ((splitOnChar '\n' content)[j]?.getD []) z s = false) ∧
      ∃ out, updateFinalCSV content z s a c = some out ∧
        (splitOnChar '\n' out)[i]? =
          some (rebuildRow ((splitOnChar '\n' content)[i]?.getD []) a c) ∧
        (∀ j : Nat, 1 ≤ j → j ≠ i →
          (splitOnChar '\n' out)[j]? = (splitOnChar '\n' content)[j]?)) := by
  have hLpos : ∀ {j : Nat}, 1 ≤ j →
      (fixHeader (splitOnChar '\n' content))[j]? = (splitOnChar '\n' content)[j]? :=
    fun hj => fixHeader_getElem_pos hj
  have hdropIdx : ∀ t : Nat,
      ((fixHeader (splitOnChar '\n' content)).drop 1)[t]? =
        (splitOnChar '\n' content)[1 + t]? := by
    intro t
    rw [List.getElem?_drop, hLpos (by omega)]
  constructor
  · rw [updateFinalCSV]
    rcases hf : findRowIdx (fixHeader (splitOnChar '\n' content)) z s with _ | i
    · simp only [hf]
      constructor
      · intro _ j hj
        have hnone := findRowIdxAux_eq_none _ 1 hf (j - 1)
        rw [hdropIdx (j - 1)] at hnone
        have : 1 + (j - 1) = j := by omega
        rwa [this] at hnone
      · intro _
        trivial
    · simp only [hf]
      obtain ⟨h1, h2, h3, h4⟩ := findRowIdxAux_some _ 1 i hf
      constructor
      · intro h
        cases h
      · intro hall
        rw [hdropIdx (i - 1)] at h3
        have hii : 1 + (i - 1) = i := by omega
        rw [hii] at h3
        rw [hall i h1] at h3
        cases h3
  · intro i hf
    obtain ⟨h1, h2, h3, h4⟩ := findRowIdxAux_some _ 1 i hf
    rw [hdropIdx (i - 1)] at h3
    have hii : 1 + (i - 1) = i := by omega
    rw [hii] at h3
    have hilen : i < (fixHeader (splitOnChar '\n' content)).length := by
      rw [List.length_drop] at h2
      omega
    refine ⟨h1, h3, ?_, ?_⟩
    · intro j hj1 hji
      have := h4 (j - 1) (by omega)
      rw [hdropIdx (j - 1)] at this
      have : (splitOnChar '\n' content)[1 + (j - 1)]? =
          (splitOnChar '\n' content)[j]? := by
        congr 1
        omega
      · have h5 := h4 (j - 1) (by omega)
        rw [hdropIdx (j - 1)] at h5
        have hjj : 1 + (j - 1) = j := by omega
        rwa [hjj] at h5
    · set lines := fixHeader (splitOnChar '\n' content) with hlines
      set newRow := rebuildRow (lines[i]?.getD []) a c with hnew
      have hout : updateFinalCSV content z s a c =
          some (joinChar '\n' (lines.set i newRow)) := by
        rw [updateFinalCSV]
        simp only [← hlines, hf]
      have hnl : ∀ x ∈ lines.set i newRow, '\n' ∉ x := by
        intro x hx
        have hmemlines : ∀ y ∈ lines, '\n' ∉ y := by
          intro y hy
          rcases mem_fixHeader (hlines ▸ hy) with hy | rfl
          · exact splitOnChar_no_sep '\n' content y hy
          · decide
        rcases mem_of_mem_set hx with hx | rfl
        · exact hmemlines x hx
        · rw [hnew]
          apply no_nl_rebuildRow ?_ ha hc
          rcases getD_nil_mem_or_nil (l := lines) i with hm | hm
          · exact hmemlines _ hm
          · rw [hm]
            simp
      have hsplit : splitOnChar '\n' (joinChar '\n' (lines.set i newRow)) =
          lines.set i newRow := by
        apply splitOnChar_joinChar _ ?_ hnl
        have : (lines.set i newRow).length = lines.length := List.length_set _ _ _
        intro hcon
        rw [hcon] at this
        simp only [List.length_nil] at this
        have hne := splitOnChar_ne_nil '\n' content
        rw [hlines] at this
        rw [fixHeader_length] at this
        exact hne (List.length_eq_zero.mp this.symm)
      refine ⟨joinChar '\n' (lines.set i newRow), hout, ?_, ?_⟩
      · rw [hsplit]
        rw [List.getElem?_set_eq_of_lt _ hilen]
        rw [hnew, hLpos h1]
      · intro j hj1 hji
        rw [hsplit, List.getElem?_set_ne (fun hij => hji hij.symm), hLpos hj1]

/-- Claim C3, counterexample: on a matched data row with five fields the
update does not only overwrite the address and city fields — it rebuilds
the row with exactly four fields, dropping the fifth (`c`). -/
theorem C3_counterexample :
    updateFinalCSV (strOf "zipcode,state,address,city\n1,NY,a,b,c")
        (strOf "1") (strOf "NY") (strOf "A") (strOf "C") =
      some (strOf "zipcode,state,address,city\n1,NY,\"A\",\"C\"") ∧
    (splitOnChar ','
      ((splitOnChar '\n' (strOf "zipcode,state,address,city\n1,NY,a,b,c"))[1]?.getD
        [])).length = 5 ∧
    (splitOnChar ','
      ((splitOnChar '\n' (strOf "zipcode,state,address,city\n1,NY,\"A\",\"C\""))[1]?.getD
        [])).length = 4 := by
  decide

/-- Claim C3, witness: the frame property of the amended claim applied to a
concrete table whose second line matches the key. -/
theorem C3_witness :
    1 ≤ 1 ∧
    rowMatches ((splitOnChar '\n' (strOf "zipcode,state,address,city\n1,NY,x,y"))[1]?.getD [])
      (strOf "1") (strOf "NY") = true ∧
    (∀ j : Nat, 1 ≤ j → j < 1 →
      rowMatches ((splitOnChar '\n' (strOf "zipcode,state,address,city\n1,NY,x,y"))[j]?.getD [])
        (strOf "1") (strOf "NY") = false) ∧
    ∃ out, updateFinalCSV (strOf "zipcode,state,address,city\n1,NY,x,y")
        (strOf "1") (strOf "NY") (strOf "9 Elm St") (strOf "Troy") = some out ∧
      (splitOnChar '\n' out)[1]? =
        some (rebuildRow
          ((splitOnChar '\n' (strOf "zipcode,state,address,city\n1,NY,x,y"))[1]?.getD [])
          (strOf "9 Elm St") (strOf "Troy")) ∧
      (∀ j : Nat, 1 ≤ j → j ≠ 1 →
        (splitOnChar '\n' out)[j]? =
          (splitOnChar '\n' (strOf "zipcode,state,address,city\n1,NY,x,y"))[j]?) :=
  (C3_updateFinalCSV_frame (strOf "zipcode,state,address,city\n1,NY,x,y")
    (strOf "1") (strOf "NY") (strOf "9 Elm St") (strOf "Troy")
    (by decide) (by decide)).2 1 (by decide)

/-! ### Retry-wrapper lemmas and claim C6 -/

lemma pwr_aux_all_faults (ext : Nat → AttemptOutcome) (z s : String)
    (retries : Nat) (m : Nat → String) (hm : m retries ≠ "")
    (hf : ∀ i, 1 ≤ i → i ≤ retries → ext i = .fault (m i)) :
    ∀ (remaining : Nat) (attempt : Nat) (lastError : Option String),
      1 ≤ remaining → 1 ≤ attempt → attempt + remaining = retries + 1 →
      processWithRetryAux ext z s retries remaining attempt lastError =
        ({ zipcode := z, state := s, addressline := "Error", city := "Error",
           valid := false, error := some (m retries) }, retries) := by
  intro remaining
  induction remaining with
  | zero => intro attempt lastError h1 _ _; omega
  | succ rem ih =>
    intro attempt lastError _ ha harith
    rw [processWithRetryAux, hf attempt ha (by omega)]
    cases rem with
    | zero =>
      have hat : attempt = retries := by omega
      subst hat
      show (maxRetriesResult z s (some (m attempt)), (attempt + 1) - 1) = _
      simp [maxRetriesResult, hm]
    | succ rr =>
      exact ih (attempt + 1) (some (m attempt)) (by omega) (by omega) (by omega)

lemma pwr_aux_success (ext : Nat → AttemptOutcome) (z s : String)
    (retries j : Nat) (r : AddressResult)
    (hj : ext j = .result r)
    (hr : (r.valid || r.addressline == "Not Found") = true)
    (hpre : ∀ i, 1 ≤ i → i < j →
      (∃ msg, ext i = .fault msg) ∨
      (∃ r', ext i = .result r' ∧ r'.valid = false ∧
        r'.addressline ≠ "Not Found" ∧ errTruthy r'.error = true)) :
    ∀ (remaining : Nat) (attempt : Nat) (lastError : Option String),
      1 ≤ attempt → attempt ≤ j → j ≤ retries →
      attempt + remaining = retries + 1 →
      processWithRetryAux ext z s retries remaining attempt lastError = (r, j) := by
  intro remaining
  induction remaining with
  | zero => intro attempt lastError _ h2 h3 harith; omega
  | succ rem ih =>
    intro attempt lastError h1 h2 h3 harith
    by_cases hat : attempt = j
    · subst hat
      rw [processWithRetryAux, hj]
      simp [hr]
    · have hlt : attempt < j := by omega
      rcases hpre attempt h1 hlt with ⟨msg, hmsg⟩ | ⟨r', hr', hv, hnf, he⟩
      · rw [processWithRetryAux, hmsg]
        exact ih (attempt + 1) (some msg) (by omega) (by omega) h3 (by omega)
      · have hcond1 : (r'.valid || r'.addressline == "Not Found") = false := by
          simp [hv, hnf]
        have hcond2 : (decide (attempt < retries) && errTruthy r'.error) = true := by
          simp [he]
          omega
        rw [processWithRetryAux, hr']
        simp only [hcond1, hcond2, Bool.false_eq_true, if_neg, not_false_iff,
          if_pos]
        exact ih (attempt + 1) lastError (by omega) (by omega) h3 (by omega)

/-- Claim C6: when the extractor throws on every attempt, `processWithRetry`
returns the Error result carrying the last fault's message after consuming
exactly `retries` attempts; and a Valid-or-Not-Found result produced on some
attempt `j` (all earlier attempts having been retried faults or invalid
results carrying a truthy — non-empty — error) is returned immediately,
with exactly `j` attempts consumed. -/
theorem C6_processWithRetry_retry_policy :
    (∀ (ext : Nat → AttemptOutcome) (z s : String) (retries : Nat)
       (m : Nat → String),
      1 ≤ retries →
      (∀ i, 1 ≤ i → i ≤ retries → ext i = .fault (m i)) →
      (∀ i, m i ≠ "") →
      processWithRetry ext z s retries =
        ({ zipcode := z, state := s, addressline := "Error", city := "Error",
           valid := false, error := some (m retries) }, retries)) ∧
    (∀ (ext : Nat → AttemptOutcome) (z s : String) (retries j : Nat)
       (r : AddressResult),
      1 ≤ j → j ≤ retries →
      (∀ i, 1 ≤ i → i < j →
        (∃ msg, ext i = .fault msg) ∨
        (∃ r', ext i = .result r' ∧ r'.valid = false ∧
          r'.addressline ≠ "Not Found" ∧ errTruthy r'.error = true)) →
      ext j = .result r →
      (r.valid || r.addressline == "Not Found") = true →
      processWithRetry ext z s retries = (r, j)) := by
  constructor
  · intro ext z s retries m h1 hf hm
    rw [processWithRetry]
    exact pwr_aux_all_faults ext z s retries m (hm retries) hf retries 1 none
      (by omega) (by omega) (by omega)
  · intro ext z s retries j r h1 h2 hpre hj hr
    rw [processWithRetry]
    exact pwr_aux_success ext z s retries j r hj hr hpre retries 1 none
      (by omega) h1 h2 (by omega)

/-- Claim C6, witness: both halves of the retry policy at concrete
extractor behaviors. -/
theorem C6_witness :
    (processWithRetry (fun _ => .fault "netfail") "10001" "NY" 2 =
      (AddressResult.mk "10001" "NY" "Error" "Error" false (some "netfail"), 2)) ∧
    (processWithRetry
        (fun i => if i = 1 then .fault "t"
          else .result (AddressResult.mk "10001" "NY" "9 Elm St" "Troy" true none))
        "10001" "NY" 3 =
      (AddressResult.mk "10001" "NY" "9 Elm St" "Troy" true none, 2)) := by
  constructor
  · exact C6_processWithRetry_retry_policy.1 (fun _ => .fault "netfail")
      "10001" "NY" 2 (fun _ => "netfail") (by decide)
      (fun i _ _ => rfl) (fun _ => show ("netfail" : String) ≠ "" by decide)
  · refine C6_processWithRetry_retry_policy.2 _ "10001" "NY" 3 2 _
      (by decide) (by decide) ?_ rfl rfl
    intro i h1 h2
    have hi : i = 1 := by omega
    subst hi
    exact Or.inl ⟨"t", rfl⟩

/-! ### Orchestrator lemmas and claim C1 -/

lemma searchForLocationType_fault {pm : PageModel} {z s : Str} {t : String}
    (h : (pm t).gotoFault.isSome = true) :
    searchForLocationType pm z s t = none := by
  rw [searchForLocationType]
  rcases hg : (pm t).gotoFault with _ | m
  · rw [hg] at h; cases h
  · simp [hg]

lemma processTerms_all_faults {pm : PageModel} {z s : Str} :
    ∀ ts : List String, (∀ t ∈ ts, (pm t).gotoFault.isSome = true) →
      processTerms pm z s ts = (none, ts.length) := by
  intro ts
  induction ts with
  | nil => intro _; rfl
  | cons t rest ih =>
    intro h
    rw [processTerms,
      searchForLocationType_fault (h t (List.mem_cons_self _ _)),
      ih (fun u hu => h u (List.mem_cons_of_mem _ hu))]
    simp

/-- Claim C1, counterexample: a collaborator whose navigation times out on
the very first search term does not resolve the unit to Error — the fault
is absorbed inside `searchForLocationType`, the orchestrator advances
through all nine search terms, and the unit is written as `Not Found`. -/
theorem C1_counterexample :
    processZipCode failPage (strOf "10001") (strOf "NY") =
      ((strOf "Not Found", strOf "Not Found"), 9) ∧
    strOf "Not Found" ≠ strOf "Error" ∧ (9 : Nat) ≠ 1 := by
  refine ⟨rfl, by decide, by decide⟩

/-- Claim C1, amended: an unrecoverable navigation/interaction fault while
processing a search term is caught inside `searchForLocationType` and
converted to a null result; the orchestrator then advances to the next
search term, and a unit all of whose search terms fault resolves to
`Not Found` — never to `Error` — after attempting every search type. -/
theorem C1_navigation_faults_absorbed (pm : PageModel) (z s : Str)
    (h : ∀ t ∈ SEARCH_TYPES, (pm t).gotoFault.isSome = true) :
    processZipCode pm z s =
      ((strOf "Not Found", strOf "Not Found"), SEARCH_TYPES.length) := by
  rw [processZipCode, processTerms_all_faults SEARCH_TYPES h]

/-- Claim C1, witness: the amended statement at the concrete always-faulting
collaborator. -/
theorem C1_witness :
    processZipCode failPage (strOf "90210") (strOf "CA") =
      ((strOf "Not Found", strOf "Not Found"), SEARCH_TYPES.length) :=
  C1_navigation_faults_absorbed failPage (strOf "90210") (strOf "CA")
    (by decide)

/-! ### Claim C10: Error-sentinel handling of the writers -/

/-- Claim C10, counterexample: `cleanText` can normalize a non-sentinel
field to `"Error"` — a result whose address line is `"Error "` (trailing
space) is not replaced, so the clean output does contain `"Error"` in the
addressline column. -/
theorem C10_counterexample :
    writeResultsRecords
        [AddressResult.mk "10001" "NY" "Error " "X" false none] =
      [CleanRow.mk "10001" "NY" "Error" "X"] ∧
    (CleanRow.mk "10001" "NY" "Error" "X").addressline = "Error" := by
  constructor
  · rfl
  · rfl

/-- Claim C10, amended: `writeResults` replaces fields exactly equal to the
`'Error'` sentinel with `'Not Found'` (normalizing with `cleanText`), so no
sentinel field survives to the clean output; an `"Error"` value can appear
in those columns only when a non-sentinel input field normalizes to it.
`writeDetailedResults` preserves `'Error'` fields, keeping error rows
distinguishable. -/
theorem C10_writeResults_error_replacement :
    (∀ results : List AddressResult,
      writeResultsRecords results = results.map writeCleanRow) ∧
    (∀ r : AddressResult, r.addressline = "Error" →
      (writeCleanRow r).addressline = "Not Found") ∧
    (∀ r : AddressResult, r.city = "Error" →
      (writeCleanRow r).city = "Not Found") ∧
    (∀ r : AddressResult, (writeCleanRow r).addressline = "Error" →
      r.addressline ≠ "Error" ∧ cleanTextS r.addressline = "Error") ∧
    (∀ r : AddressResult, (writeCleanRow r).city = "Error" →
      r.city ≠ "Error" ∧ cleanTextS r.city = "Error") ∧
    (∀ r : AddressResult, r.addressline = "Error" →
      (writeDetailedRow r).addressline = "Error") := by
  refine ⟨fun results => rfl, ?_, ?_, ?_, ?_, ?_⟩
  · intro r h
    simp only [writeCleanRow, h, if_pos]
    decide
  · intro r h
    simp only [writeCleanRow, h, if_pos]
    decide
  · intro r h
    by_cases hr : r.addressline = "Error"
    · simp only [writeCleanRow, hr, if_pos] at h
      exact absurd h (by decide)
    · simp only [writeCleanRow, hr, if_neg, not_false_iff] at h
      exact ⟨hr, h⟩
  · intro r h
    by_cases hr : r.city = "Error"
    · simp only [writeCleanRow, hr, if_pos] at h
      exact absurd h (by decide)
    · simp only [writeCleanRow, hr, if_neg, not_false_iff] at h
      exact ⟨hr, h⟩
  · intro r h
    simp only [writeDetailedRow, h]
    decide

/-- Claim C10, witness: sentinel replacement and detailed preservation at a
concrete Error result. -/
theorem C10_witness :
    (writeCleanRow (AddressResult.mk "10001" "NY" "Error" "Error" false
      (some "boom"))).addressline = "Not Found" ∧
    (writeDetailedRow (AddressResult.mk "10001" "NY" "Error" "Error" false
      (some "boom"))).addressline = "Error" :=
  ⟨C10_writeResults_error_replacement.2.1 _ rfl,
   C10_writeResults_error_replacement.2.2.2.2.2 _ rfl⟩
